import Mathlib

/-!
Shallow embedding of the websocket-golang notification relay (src/main.go):
the connection registry and broadcast dispatcher, the adaptive per-channel
persistence layer (ensureTable / saveToDB), and the dynamic filter query
builder of searchHandler.  The database is modelled as an association list
of named tables; every SQL statement text is built exactly as the Go code
builds it, and statement execution is threaded through an oracle recording
which statement texts the external database rejects.
-/

namespace WsGo

/-- A live websocket connection handle (Go: `*websocket.Conn`). -/
abbrev Conn := Nat

/-- The `clients` map of main.go: live connection handle to its single
subscribed channel. -/
abbrev Registry := List (Conn × String)

/-- The event envelope (Go struct `Notification`): channel, event kind and
the free-form `data` field mapping, modelled as an association list of
field name to scalar value rendered as a string. -/
structure Notification where
  channel : String
  event : String
  data : List (String × String)
deriving DecidableEq, Repr

/-- A column of a per-channel relation: name and SQL type text. -/
structure Column where
  name : String
  ty : String
deriving DecidableEq, Repr

/-- A stored row: field name to value; absent fields are NULL. -/
abbrev Row := List (String × String)

/-- A per-channel relation: its column list and its rows. -/
structure Table where
  cols : List Column
  rows : List Row
deriving DecidableEq, Repr

/-- The external database state: named relations. -/
abbrev DB := List (String × Table)

/-- Find a relation by name. -/
def findTable : DB → String → Option Table
  | [], _ => none
  | (n, t) :: rest, name => if n = name then some t else findTable rest name

/-- `CREATE TABLE IF NOT EXISTS`: no-op when the relation exists. -/
def createTableIfNotExists (db : DB) (name : String) (cols : List Column) : DB :=
  if (findTable db name).isSome then db else db ++ [(name, ⟨cols, []⟩)]

/-- Whether a relation has a column of the given name
(Go: the `information_schema.columns` EXISTS probe). -/
def hasColumn (db : DB) (name col : String) : Bool :=
  match findTable db name with
  | some t => t.cols.any (fun c => c.name = col)
  | none => false

/-- Apply a table-level update to every relation of the given name. -/
def modifyTable (db : DB) (name : String) (f : Table → Table) : DB :=
  db.map (fun p => if p.1 = name then (p.1, f p.2) else p)

/-- `ALTER TABLE ... ADD COLUMN`: append one column, rows untouched. -/
def addColumn (db : DB) (name : String) (c : Column) : DB :=
  modifyTable db name (fun t => ⟨t.cols ++ [c], t.rows⟩)

/-- `INSERT`: append one row, columns untouched. -/
def insertRow (db : DB) (name : String) (row : Row) : DB :=
  modifyTable db name (fun t => ⟨t.cols, t.rows ++ [row]⟩)

/-- Which statement texts the external database rejects (`dbConn.Exec`
returning an error). -/
abbrev ExecOracle := String → Bool

/-- The always-succeeding database. -/
def noErr : ExecOracle := fun _ => false

/-- Run one statement: on failure return the statement text and the
unchanged database (no transaction wraps the Go code's statements). -/
def exec (err : ExecOracle) (db : DB) (stmt : String) (f : DB → DB) :
    Except (String × DB) DB :=
  if err stmt then .error (stmt, db) else .ok (f db)

/-- The base/dynamic column skip set of main.go: `id`, `created_at` and
`event` are never treated as payload-driven dynamic columns. -/
def skipKey (f : String) : Bool :=
  f == "id" || f == "created_at" || f == "event"

/-- The column definition list of `ensureTable` lines 131-142: fixed base
columns plus one TEXT column per non-skipped payload field. -/
def baseColumnDefs (keys : List String) : List String :=
  ["id SERIAL PRIMARY KEY", "created_at TIMESTAMP DEFAULT NOW()", "\"event\" TEXT"]
    ++ (keys.filter (fun f => !(skipKey f))).map (fun f => "\"" ++ f ++ "\" TEXT")

/-- The same column list as model columns. -/
def baseColumns (keys : List String) : List Column :=
  [⟨"id", "SERIAL PRIMARY KEY"⟩, ⟨"created_at", "TIMESTAMP DEFAULT NOW()"⟩, ⟨"event", "TEXT"⟩]
    ++ (keys.filter (fun f => !(skipKey f))).map (fun f => ⟨f, "TEXT"⟩)

/-- The DDL text of `ensureTable` line 145, with the channel name
interpolated verbatim into the statement. -/
def createTableQuery (channel : String) (keys : List String) : String :=
  "CREATE TABLE IF NOT EXISTS \"" ++ channel ++ "\" ("
    ++ String.intercalate ", " (baseColumnDefs keys) ++ ");"

/-- The DDL text of `ensureTable` lines 166 and 191, with channel and field
names interpolated verbatim. -/
def addColumnQuery (channel field : String) : String :=
  "ALTER TABLE \"" ++ channel ++ "\" ADD COLUMN \"" ++ field ++ "\" TEXT;"

/-- The missing-column loop of `ensureTable` lines 174-198: for each
non-skipped field, add the column when absent. -/
def ensureColumnsLoop (err : ExecOracle) (db : DB) (channel : String) :
    List String → Except (String × DB) DB
  | [] => .ok db
  | f :: rest =>
    if skipKey f then ensureColumnsLoop err db channel rest
    else if hasColumn db channel f then ensureColumnsLoop err db channel rest
    else
      match exec err db (addColumnQuery channel f) (fun d => addColumn d channel ⟨f, "TEXT"⟩) with
      | .error e => .error e
      | .ok db2 => ensureColumnsLoop err db2 channel rest

/-- `ensureTable` of main.go lines 125-201: create the relation if absent,
backfill the `event` column on legacy relations, then add any missing
payload columns.  No identifier validation is performed anywhere. -/
def ensureTable (err : ExecOracle) (db : DB) (channel : String) (keys : List String) :
    Except (String × DB) DB :=
  match exec err db (createTableQuery channel keys)
      (fun d => createTableIfNotExists d channel (baseColumns keys)) with
  | .error e => .error e
  | .ok db1 =>
    match
      (if hasColumn db1 channel "event" then Except.ok db1
       else exec err db1 (addColumnQuery channel "event")
          (fun d => addColumn d channel ⟨"event", "TEXT"⟩)) with
    | .error e => .error e
    | .ok db2 => ensureColumnsLoop err db2 channel keys

/-- The quoted field list of the INSERT of `saveToDB` lines 214-229. -/
def insertFields (data : List (String × String)) : List String :=
  ["\"event\""]
    ++ (data.filter (fun p => !(skipKey p.1))).map (fun p => "\"" ++ p.1 ++ "\"")
    ++ ["created_at"]

/-- `$1`, ..., `$n` placeholders. -/
def insertPlaceholders (n : Nat) : List String :=
  (List.range n).map (fun i => "$" ++ toString (i + 1))

/-- The INSERT statement text of `saveToDB` line 233. -/
def insertStatement (channel : String) (data : List (String × String)) : String :=
  "INSERT INTO \"" ++ channel ++ "\" ("
    ++ String.intercalate ", " (insertFields data) ++ ") VALUES ("
    ++ String.intercalate ", " (insertPlaceholders (insertFields data).length) ++ ")"

/-- The bound values of the INSERT: the `event` argument first, then the
non-skipped payload fields, then the server-side `created_at` timestamp
(`time.Now()`, passed in as `now`). -/
def insertValues (data : List (String × String)) (event now : String) : Row :=
  ("event", event) :: data.filter (fun p => !(skipKey p.1)) ++ [("created_at", now)]

/-- `saveToDB` of main.go lines 204-236: reconcile the schema, then insert
one row. -/
def saveToDB (err : ExecOracle) (db : DB) (channel : String)
    (data : List (String × String)) (event now : String) : Except (String × DB) DB :=
  match ensureTable err db channel (data.map Prod.fst) with
  | .error e => .error e
  | .ok db1 =>
    exec err db1 (insertStatement channel data)
      (fun d => insertRow d channel (insertValues data event now))

/-- The database effect of the missing-column loop when no statement
fails: the pure fold underlying `ensureColumnsLoop`. -/
def ensureColumnsP (db : DB) (channel : String) (keys : List String) : DB :=
  keys.foldl
    (fun d f =>
      if skipKey f then d
      else if hasColumn d channel f then d
      else addColumn d channel ⟨f, "TEXT"⟩) db

/-- The database effect of `ensureTable` when no statement fails. -/
def ensureTableP (db : DB) (channel : String) (keys : List String) : DB :=
  let db1 := createTableIfNotExists db channel (baseColumns keys)
  let db2 :=
    if hasColumn db1 channel "event" then db1
    else addColumn db1 channel ⟨"event", "TEXT"⟩
  ensureColumnsP db2 channel keys

/-- The database effect of `saveToDB` when no statement fails. -/
def saveToDBP (db : DB) (channel : String) (data : List (String × String))
    (event now : String) : DB :=
  insertRow (ensureTableP db channel (data.map Prod.fst)) channel
    (insertValues data event now)

/-- The column list produced by reconciling `cols` against the payload
keys: one TEXT column appended per non-skipped key not already present. -/
def addMissing (cols : List Column) : List String → List Column
  | [] => cols
  | f :: rest =>
    if skipKey f then addMissing cols rest
    else if cols.any (fun c => c.name = f) then addMissing cols rest
    else addMissing (cols ++ [⟨f, "TEXT"⟩]) rest

/-- `db2` extends `db` table-wise: every relation survives with its column
list extended on the right only (never removed, never retyped). -/
def colsExtend (db db2 : DB) : Prop :=
  ∀ n tb, findTable db n = some tb →
    ∃ tb2, findTable db2 n = some tb2 ∧ tb.cols <+: tb2.cols

/-- Outcome of `broadcastNotification`: the connections written to
successfully, those whose `WriteJSON` failed, and the state of the
`clients` map after the loop (the loop body never mutates it). -/
structure BroadcastResult where
  delivered : List Conn
  failed : List Conn
  registry : Registry
deriving DecidableEq, Repr

/-- The delivery loop of `broadcastNotification` lines 421-429: one sweep
over the `clients` map, writing to each entry bound to the event's channel;
a write error is only counted. -/
def broadcastLoop (okW : Conn → Bool) (ch : String) :
    Registry → List Conn × List Conn
  | [] => ([], [])
  | (client, channel) :: rest =>
    let (s, f) := broadcastLoop okW ch rest
    if channel = ch then
      if okW client then (client :: s, f) else (s, client :: f)
    else (s, f)

/-- `broadcastNotification` of main.go lines 414-438 (metrics counters
aside): deliver the event to every registered connection bound to its
channel; `okW c` models whether `client.WriteJSON` succeeds on `c`. -/
def broadcastNotification (clients : Registry) (okW : Conn → Bool)
    (notif : Notification) : BroadcastResult :=
  let (s, f) := broadcastLoop okW notif.channel clients
  ⟨s, f, clients⟩

/-- The subscription step of `handleWebSocket` lines 255-257:
`clients[conn] = subscription.Channel`, a Go map assignment — it replaces
the binding when the handle is present and adds it otherwise. -/
def register (clients : Registry) (conn : Conn) (channel : String) : Registry :=
  if (clients.lookup conn).isSome then
    clients.map (fun p => if p.1 = conn then (conn, channel) else p)
  else clients ++ [(conn, channel)]

/-- HTTP response outcomes of `sendNotification`. -/
inductive Resp where
  | ok
  | internalError (detail : String)
deriving DecidableEq, Repr

/-- Observable outcome of one `sendNotification` call: the response, the
database state, the delivery outcome and the `clients` map afterwards. -/
structure SendResult where
  resp : Resp
  db : DB
  delivered : List Conn
  failed : List Conn
  clientsAfter : Registry
deriving DecidableEq, Repr

/-- `sendNotification` of main.go lines 297-316, after JSON binding: when
the database is enabled, persist first and on failure respond 500 and
return without broadcasting; otherwise broadcast and respond 200.  No
validation of the channel (emptiness or identifier safety) is performed. -/
def sendNotification (err : ExecOracle) (useDB : Bool) (db : DB)
    (clients : Registry) (okW : Conn → Bool) (notif : Notification)
    (now : String) : SendResult :=
  if useDB then
    match saveToDB err db notif.channel notif.data notif.event now with
    | .error (e, dbp) => ⟨.internalError e, dbp, [], [], clients⟩
    | .ok db2 =>
      let b := broadcastNotification clients okW notif
      ⟨.ok, db2, b.delivered, b.failed, b.registry⟩
  else
    let b := broadcastNotification clients okW notif
    ⟨.ok, db, b.delivered, b.failed, b.registry⟩

/-- One search filter (Go struct `SearchRequest.Filters` element). -/
structure Filter where
  field : String
  op : String
  value : String
deriving DecidableEq, Repr

/-- The fixed operator allow-list of main.go lines 403-412. -/
def allowedOperators : List (String × String) :=
  [("==", "="), ("!=", "!="), (">", ">"), ("<", "<"),
   (">=", ">="), ("<=", "<="), ("like", "LIKE"), ("ilike", "ILIKE")]

/-- The filter loop of `searchHandler` lines 342-351: translate each filter
into a condition string and a bound argument, rejecting the whole request
at the first unrecognized operator.  The filter's value goes only into the
argument list; the condition text holds the field name (verbatim, quoted),
the mapped operator and a placeholder. -/
def buildQueryLoop : List Filter → Nat → Except String (List String × List String)
  | [], _ => .ok ([], [])
  | f :: rest, argIdx =>
    match allowedOperators.lookup f.op with
    | none => .error ("Invalid operator: " ++ f.op)
    | some op =>
      match buildQueryLoop rest (argIdx + 1) with
      | .error e => .error e
      | .ok (conds, args) =>
        .ok (("\"" ++ f.field ++ "\" " ++ op ++ " $" ++ toString argIdx) :: conds,
             f.value :: args)

/-- The query construction of `searchHandler` lines 337-357: base SELECT on
the channel's relation, optional WHERE joining the conditions with AND,
then `ORDER BY id DESC LIMIT 100`. -/
def buildQuery (channel : String) (filters : List Filter) :
    Except String (String × List String) :=
  match buildQueryLoop filters 1 with
  | .error e => .error e
  | .ok (conds, args) =>
    let baseQuery := "SELECT * FROM \"" ++ channel ++ "\""
    let query :=
      if conds.length > 0 then baseQuery ++ " WHERE " ++ String.intercalate " AND " conds
      else baseQuery
    .ok (query ++ " ORDER BY id DESC LIMIT 100", args)

/-- The condition texts determined by field/operator pairs alone — used to
state that filter values never reach the query text. -/
def queryConds : List (String × String) → Nat → List String
  | [], _ => []
  | (fld, op) :: rest, argIdx =>
    ("\"" ++ fld ++ "\" " ++ ((allowedOperators.lookup op).getD "") ++ " $" ++ toString argIdx)
      :: queryConds rest (argIdx + 1)

/-- The query text determined by the channel and the field/operator pairs
alone. -/
def queryTextOf (channel : String) (fos : List (String × String)) : String :=
  let conds := queryConds fos 1
  let baseQuery := "SELECT * FROM \"" ++ channel ++ "\""
  (if conds.length > 0 then baseQuery ++ " WHERE " ++ String.intercalate " AND " conds
   else baseQuery) ++ " ORDER BY id DESC LIMIT 100"

/-! ### Helper lemmas -/

theorem lookup_eq_some_iff {l : Registry} {c : Conn} {ch : String}
    (hnd : (l.map Prod.fst).Nodup) : l.lookup c = some ch ↔ (c, ch) ∈ l := by
  induction l with
  | nil => simp
  | cons hd tl ih =>
    obtain ⟨k, v⟩ := hd
    simp only [List.map_cons, List.nodup_cons, List.mem_map] at hnd
    by_cases hk : c = k
    · subst hk
      have hl : List.lookup c ((c, v) :: tl) = some v := by
        simp [List.lookup]
      rw [hl]
      simp only [List.mem_cons, Prod.mk.injEq, true_and]
      constructor
      · rintro h
        exact Or.inl (Option.some.inj h).symm
      · rintro (rfl | hmem)
        · rfl
        · exact absurd ⟨(c, ch), hmem, rfl⟩ hnd.1
    · have hbeq : (c == k) = false := by simp [hk]
      have hl : List.lookup c ((k, v) :: tl) = List.lookup c tl := by
        simp [List.lookup, hbeq]
      rw [hl, ih hnd.2]
      simp only [List.mem_cons, Prod.mk.injEq]
      constructor
      · exact fun h => Or.inr h
      · rintro (⟨h1, h2⟩ | h)
        · exact absurd h1 hk
        · exact h

theorem broadcastLoop_eq (okW : Conn → Bool) (ch : String) (l : Registry) :
    broadcastLoop okW ch l =
      (((l.filter (fun p => p.2 == ch)).filter (fun p => okW p.1)).map Prod.fst,
       ((l.filter (fun p => p.2 == ch)).filter (fun p => !okW p.1)).map Prod.fst) := by
  induction l with
  | nil => rfl
  | cons hd tl ih =>
    obtain ⟨client, channel⟩ := hd
    simp only [broadcastLoop, ih]
    by_cases hch : channel = ch
    · subst hch
      by_cases hok : okW client = true
      · simp [hok]
      · rw [Bool.not_eq_true] at hok
        simp [hok]
    · simp [hch, beq_false_of_ne hch]

theorem mem_broadcast_iff {reg : Registry} {okW : Conn → Bool} {notif : Notification}
    (hnd : (reg.map Prod.fst).Nodup) (c : Conn) :
    (c ∈ (broadcastNotification reg okW notif).delivered
        ++ (broadcastNotification reg okW notif).failed) ↔
      reg.lookup c = some notif.channel := by
  rw [lookup_eq_some_iff hnd]
  simp only [broadcastNotification, broadcastLoop_eq]
  simp only [List.mem_append, List.mem_map, List.mem_filter]
  constructor
  · rintro (⟨p, ⟨⟨hp, hpc⟩, _⟩, rfl⟩ | ⟨p, ⟨⟨hp, hpc⟩, _⟩, rfl⟩) <;>
      · obtain ⟨p1, p2⟩ := p
        simp only [beq_iff_eq] at hpc
        subst hpc
        exact hp
  · intro hmem
    by_cases hok : okW c = true
    · exact Or.inl ⟨(c, notif.channel), ⟨⟨hmem, by simp⟩, hok⟩, rfl⟩
    · exact Or.inr ⟨(c, notif.channel), ⟨⟨hmem, by simp⟩, by simp [hok]⟩, rfl⟩

theorem broadcast_nodup {reg : Registry} {okW : Conn → Bool} {notif : Notification}
    (hnd : (reg.map Prod.fst).Nodup) :
    ((broadcastNotification reg okW notif).delivered
      ++ (broadcastNotification reg okW notif).failed).Nodup := by
  simp only [broadcastNotification, broadcastLoop_eq]
  have hmatched : ((reg.filter (fun p => p.2 == notif.channel)).map Prod.fst).Nodup :=
    hnd.sublist (List.Sublist.map Prod.fst (List.filter_sublist reg))
  refine List.Nodup.append
    (hmatched.sublist (List.Sublist.map Prod.fst (List.filter_sublist _)))
    (hmatched.sublist (List.Sublist.map Prod.fst (List.filter_sublist _))) ?_
  intro c hcs hcf
  simp only [List.mem_map, List.mem_filter] at hcs hcf
  obtain ⟨p, ⟨_, hpok⟩, rfl⟩ := hcs
  obtain ⟨q, ⟨_, hqok⟩, hq⟩ := hcf
  rw [hq] at hqok
  simp [hpok] at hqok

theorem exec_noErr (db : DB) (stmt : String) (f : DB → DB) :
    exec noErr db stmt f = .ok (f db) := rfl

theorem ensureColumnsLoop_noErr (channel : String) :
    ∀ (keys : List String) (db : DB),
      ensureColumnsLoop noErr db channel keys = .ok (ensureColumnsP db channel keys)
  | [], db => rfl
  | f :: rest, db => by
    simp only [ensureColumnsLoop, ensureColumnsP, List.foldl_cons]
    by_cases h1 : skipKey f = true
    · simp only [h1, if_true]
      exact ensureColumnsLoop_noErr channel rest db
    · simp only [Bool.not_eq_true] at h1
      simp only [h1, Bool.false_eq_true, if_false]
      by_cases h2 : hasColumn db channel f = true
      · simp only [h2, if_true]
        exact ensureColumnsLoop_noErr channel rest db
      · simp only [Bool.not_eq_true] at h2
        simp only [h2, Bool.false_eq_true, if_false, exec_noErr]
        exact ensureColumnsLoop_noErr channel rest _

theorem ensureTable_noErr (db : DB) (channel : String) (keys : List String) :
    ensureTable noErr db channel keys = .ok (ensureTableP db channel keys) := by
  show (match
      (if hasColumn (createTableIfNotExists db channel (baseColumns keys)) channel "event"
        then Except.ok (createTableIfNotExists db channel (baseColumns keys))
        else exec noErr (createTableIfNotExists db channel (baseColumns keys))
          (addColumnQuery channel "event")
          (fun d => addColumn d channel ⟨"event", "TEXT"⟩)) with
    | .error e => Except.error e
    | .ok db2 => ensureColumnsLoop noErr db2 channel keys) = _
  by_cases h : hasColumn (createTableIfNotExists db channel (baseColumns keys))
      channel "event" = true
  · rw [if_pos h]
    show ensureColumnsLoop noErr (createTableIfNotExists db channel (baseColumns keys))
        channel keys = _
    rw [ensureColumnsLoop_noErr]
    simp [ensureTableP, h]
  · simp only [Bool.not_eq_true] at h
    rw [if_neg (by simp [h])]
    show ensureColumnsLoop noErr
        (addColumn (createTableIfNotExists db channel (baseColumns keys)) channel
          ⟨"event", "TEXT"⟩) channel keys = _
    rw [ensureColumnsLoop_noErr]
    simp [ensureTableP, h]

theorem saveToDB_noErr (db : DB) (channel : String) (data : List (String × String))
    (event now : String) :
    saveToDB noErr db channel data event now =
      .ok (saveToDBP db channel data event now) := by
  unfold saveToDB
  rw [ensureTable_noErr]
  rfl

theorem modifyTable_cons (tn : String) (t : Table) (tl : List (String × Table))
    (name : String) (f : Table → Table) :
    modifyTable ((tn, t) :: tl) name f =
      (if tn = name then (tn, f t) else (tn, t)) :: modifyTable tl name f := by
  simp only [modifyTable, List.map_cons]

theorem findTable_cons (a : String) (b : Table) (rest : DB) (q : String) :
    findTable ((a, b) :: rest) q = if a = q then some b else findTable rest q := rfl

theorem findTable_modifyTable_self (name : String) (f : Table → Table) :
    ∀ db : DB, findTable (modifyTable db name f) name = (findTable db name).map f
  | [] => rfl
  | (tn, t) :: tl => by
    rw [modifyTable_cons]
    by_cases h1 : tn = name
    · subst h1
      rw [if_pos rfl, findTable_cons, findTable_cons, if_pos rfl, if_pos rfl]
      rfl
    · rw [if_neg h1, findTable_cons, findTable_cons, if_neg h1, if_neg h1]
      exact findTable_modifyTable_self name f tl

theorem findTable_modifyTable_other (name : String) (f : Table → Table) {n : String}
    (hn : n ≠ name) : ∀ db : DB, findTable (modifyTable db name f) n = findTable db n
  | [] => rfl
  | (tn, t) :: tl => by
    rw [modifyTable_cons]
    by_cases h1 : tn = name
    · subst h1
      have hne : ¬(tn = n) := fun hc => hn (hc ▸ rfl)
      rw [if_pos rfl, findTable_cons, findTable_cons, if_neg hne, if_neg hne]
      exact findTable_modifyTable_other _ f hn tl
    · rw [if_neg h1]
      by_cases h2 : tn = n
      · rw [findTable_cons, findTable_cons, if_pos h2, if_pos h2]
      · rw [findTable_cons, findTable_cons, if_neg h2, if_neg h2]
        exact findTable_modifyTable_other name f hn tl

theorem findTable_addColumn_self (db : DB) (name : String) (c : Column) :
    findTable (addColumn db name c) name =
      (findTable db name).map (fun t => ⟨t.cols ++ [c], t.rows⟩) :=
  findTable_modifyTable_self name _ db

theorem findTable_addColumn_other (db : DB) (name : String) (c : Column) {n : String}
    (hn : n ≠ name) : findTable (addColumn db name c) n = findTable db n :=
  findTable_modifyTable_other name _ hn db

theorem findTable_insertRow_self (db : DB) (name : String) (row : Row) :
    findTable (insertRow db name row) name =
      (findTable db name).map (fun t => ⟨t.cols, t.rows ++ [row]⟩) :=
  findTable_modifyTable_self name _ db

theorem findTable_insertRow_other (db : DB) (name : String) (row : Row) {n : String}
    (hn : n ≠ name) : findTable (insertRow db name row) n = findTable db n :=
  findTable_modifyTable_other name _ hn db

theorem createTable_of_exists {db : DB} {name : String} (cols : List Column)
    (hp : (findTable db name).isSome = true) :
    createTableIfNotExists db name cols = db := by
  simp [createTableIfNotExists, hp]

theorem findTable_append {l : List (String × Table)} {n : String} {tb : Table} :
    ∀ {db : DB}, findTable db n = some tb → findTable (db ++ l) n = some tb := by
  intro db
  induction db with
  | nil => intro h; exact absurd h (by simp [findTable])
  | cons hd tl ih =>
    obtain ⟨tn, t⟩ := hd
    intro h
    by_cases h1 : tn = n
    · simp only [findTable, if_pos h1] at h
      simp only [List.cons_append, findTable, if_pos h1, h]
    · simp only [findTable, if_neg h1] at h
      simp only [List.cons_append, findTable, if_neg h1]
      exact ih h

theorem hasColumn_eq {db : DB} {name : String} {t : Table}
    (ht : findTable db name = some t) (col : String) :
    hasColumn db name col = t.cols.any (fun c => c.name = col) := by
  simp [hasColumn, ht]

theorem ensureColumnsP_target (channel : String) :
    ∀ (keys : List String) (db : DB) (t : Table), findTable db channel = some t →
      findTable (ensureColumnsP db channel keys) channel =
        some ⟨addMissing t.cols keys, t.rows⟩
  | [], db, t, ht => by simpa [ensureColumnsP, addMissing] using ht
  | f :: rest, db, t, ht => by
    simp only [ensureColumnsP, List.foldl_cons, addMissing]
    by_cases h1 : skipKey f = true
    · simp only [h1, if_true]
      exact ensureColumnsP_target channel rest db t ht
    · simp only [Bool.not_eq_true] at h1
      simp only [h1, Bool.false_eq_true, if_false]
      rw [hasColumn_eq ht f]
      by_cases h2 : t.cols.any (fun c => c.name = f) = true
      · simp only [h2, if_true]
        exact ensureColumnsP_target channel rest db t ht
      · simp only [Bool.not_eq_true] at h2
        simp only [h2, Bool.false_eq_true, if_false]
        have ht2 : findTable (addColumn db channel ⟨f, "TEXT"⟩) channel =
            some ⟨t.cols ++ [⟨f, "TEXT"⟩], t.rows⟩ := by
          rw [findTable_addColumn_self, ht]
          rfl
        exact ensureColumnsP_target channel rest _ _ ht2

theorem ensureColumnsP_other (channel : String) {n : String} (hn : n ≠ channel) :
    ∀ (keys : List String) (db : DB),
      findTable (ensureColumnsP db channel keys) n = findTable db n
  | [], db => rfl
  | f :: rest, db => by
    simp only [ensureColumnsP, List.foldl_cons]
    by_cases h1 : skipKey f = true
    · simp only [h1, if_true]
      exact ensureColumnsP_other channel hn rest db
    · simp only [Bool.not_eq_true] at h1
      simp only [h1, Bool.false_eq_true, if_false]
      by_cases h2 : hasColumn db channel f = true
      · simp only [h2, if_true]
        exact ensureColumnsP_other channel hn rest db
      · simp only [Bool.not_eq_true] at h2
        simp only [h2, Bool.false_eq_true, if_false]
        have h3 := ensureColumnsP_other channel hn rest (addColumn db channel ⟨f, "TEXT"⟩)
        simp only [ensureColumnsP] at h3
        rw [h3, findTable_addColumn_other db channel _ hn]

theorem addMissing_of_none_missing {cols : List Column} :
    ∀ {keys : List String},
      (∀ g ∈ keys, skipKey g = true ∨ cols.any (fun c => c.name = g) = true) →
      addMissing cols keys = cols := by
  intro keys
  induction keys with
  | nil => intro _; rfl
  | cons f rest ih =>
    intro h
    rcases h f (List.mem_cons_self f rest) with h1 | h1
    · simp only [addMissing, h1, if_true]
      exact ih (fun g hg => h g (List.mem_cons_of_mem f hg))
    · simp only [addMissing, h1, if_true]
      by_cases h2 : skipKey f = true
      · simp only [h2, if_true]
        exact ih (fun g hg => h g (List.mem_cons_of_mem f hg))
      · simp only [Bool.not_eq_true] at h2
        simp only [h2, Bool.false_eq_true, if_false]
        exact ih (fun g hg => h g (List.mem_cons_of_mem f hg))

theorem addMissing_single {cols : List Column} {k : String} :
    ∀ {keys : List String},
      keys.filter (fun f => !(skipKey f) && !(cols.any (fun c => c.name = f))) = [k] →
      addMissing cols keys = cols ++ [⟨k, "TEXT"⟩] := by
  intro keys
  induction keys with
  | nil => intro h; simp at h
  | cons f rest ih =>
    intro h
    rw [List.filter_cons] at h
    by_cases h1 : skipKey f = true
    · simp only [h1, Bool.not_true, Bool.false_and, Bool.false_eq_true, if_false] at h
      simp only [addMissing, h1, if_true]
      exact ih h
    · simp only [Bool.not_eq_true] at h1
      by_cases h2 : cols.any (fun c => c.name = f) = true
      · simp only [h1, h2, Bool.not_true, Bool.and_false, Bool.not_false,
          Bool.false_eq_true, if_false] at h
        simp only [addMissing, h1, Bool.false_eq_true, if_false, h2, if_true]
        exact ih h
      · simp only [Bool.not_eq_true] at h2
        simp only [h1, h2, Bool.not_false, Bool.and_self, if_true,
          List.cons.injEq] at h
        obtain ⟨rfl, hrest⟩ := h
        simp only [addMissing, h1, Bool.false_eq_true, if_false, h2, if_true]
        apply addMissing_of_none_missing
        intro g hg
        have hgcond := List.filter_eq_nil_iff.mp hrest g hg
        simp only [Bool.and_eq_true, Bool.not_eq_true', Bool.not_eq_true] at hgcond
        by_cases hs : skipKey g = true
        · exact Or.inl hs
        · right
          simp only [Bool.not_eq_true] at hs
          have h3 : cols.any (fun c => c.name = g) = true := by
            by_contra hc
            simp only [Bool.not_eq_true] at hc
            exact hgcond ⟨hs, hc⟩
          rw [List.any_append]
          simp [h3]

theorem colsExtend_refl (db : DB) : colsExtend db db :=
  fun _ tb h => ⟨tb, h, List.prefix_refl _⟩

theorem colsExtend_trans {db1 db2 db3 : DB}
    (h1 : colsExtend db1 db2) (h2 : colsExtend db2 db3) : colsExtend db1 db3 := by
  intro n tb h
  obtain ⟨tb2, hf2, hp2⟩ := h1 n tb h
  obtain ⟨tb3, hf3, hp3⟩ := h2 n tb2 hf2
  exact ⟨tb3, hf3, hp2.trans hp3⟩

theorem colsExtend_createTable (db : DB) (name : String) (cols : List Column) :
    colsExtend db (createTableIfNotExists db name cols) := by
  intro n tb h
  unfold createTableIfNotExists
  split_ifs
  · exact ⟨tb, h, List.prefix_refl _⟩
  · exact ⟨tb, findTable_append h, List.prefix_refl _⟩

theorem colsExtend_addColumn (db : DB) (name : String) (c : Column) :
    colsExtend db (addColumn db name c) := by
  intro n tb h
  by_cases hn : n = name
  · subst hn
    exact ⟨⟨tb.cols ++ [c], tb.rows⟩, by rw [findTable_addColumn_self, h]; rfl,
      List.prefix_append _ _⟩
  · exact ⟨tb, by rw [findTable_addColumn_other db name c hn]; exact h,
      List.prefix_refl _⟩

theorem colsExtend_insertRow (db : DB) (name : String) (row : Row) :
    colsExtend db (insertRow db name row) := by
  intro n tb h
  by_cases hn : n = name
  · subst hn
    exact ⟨⟨tb.cols, tb.rows ++ [row]⟩, by rw [findTable_insertRow_self, h]; rfl,
      List.prefix_refl _⟩
  · exact ⟨tb, by rw [findTable_insertRow_other db name row hn]; exact h,
      List.prefix_refl _⟩

theorem colsExtend_ensureColumnsP (channel : String) :
    ∀ (keys : List String) (db : DB), colsExtend db (ensureColumnsP db channel keys)
  | [], db => colsExtend_refl db
  | f :: rest, db => by
    simp only [ensureColumnsP, List.foldl_cons]
    by_cases h1 : skipKey f = true
    · simp only [h1, if_true]
      exact colsExtend_ensureColumnsP channel rest db
    · simp only [Bool.not_eq_true] at h1
      simp only [h1, Bool.false_eq_true, if_false]
      by_cases h2 : hasColumn db channel f = true
      · simp only [h2, if_true]
        exact colsExtend_ensureColumnsP channel rest db
      · simp only [Bool.not_eq_true] at h2
        simp only [h2, Bool.false_eq_true, if_false]
        exact colsExtend_trans (colsExtend_addColumn db channel ⟨f, "TEXT"⟩)
          (colsExtend_ensureColumnsP channel rest _)

theorem colsExtend_saveToDBP (db : DB) (channel : String)
    (data : List (String × String)) (event now : String) :
    colsExtend db (saveToDBP db channel data event now) := by
  have h1 := colsExtend_createTable db channel (baseColumns (data.map Prod.fst))
  by_cases h : hasColumn (createTableIfNotExists db channel
      (baseColumns (data.map Prod.fst))) channel "event" = true
  · have heq : saveToDBP db channel data event now =
        insertRow (ensureColumnsP
          (createTableIfNotExists db channel (baseColumns (data.map Prod.fst)))
          channel (data.map Prod.fst)) channel (insertValues data event now) := by
      simp [saveToDBP, ensureTableP, h]
    rw [heq]
    exact colsExtend_trans h1 (colsExtend_trans
      (colsExtend_ensureColumnsP channel (data.map Prod.fst) _)
      (colsExtend_insertRow _ channel _))
  · simp only [Bool.not_eq_true] at h
    have heq : saveToDBP db channel data event now =
        insertRow (ensureColumnsP
          (addColumn (createTableIfNotExists db channel (baseColumns (data.map Prod.fst)))
            channel ⟨"event", "TEXT"⟩)
          channel (data.map Prod.fst)) channel (insertValues data event now) := by
      simp [saveToDBP, ensureTableP, h]
    rw [heq]
    exact colsExtend_trans h1 (colsExtend_trans
      (colsExtend_addColumn _ channel ⟨"event", "TEXT"⟩)
      (colsExtend_trans (colsExtend_ensureColumnsP channel (data.map Prod.fst) _)
        (colsExtend_insertRow _ channel _)))

theorem filter_self_idem {α : Type} (p : α → Bool) (l : List α) :
    (l.filter p).filter p = l.filter p := by
  induction l with
  | nil => rfl
  | cons hd tl ih =>
    by_cases h : p hd = true
    · simp [List.filter_cons, h, ih]
    · simp only [Bool.not_eq_true] at h
      simp [List.filter_cons, h, ih]

theorem map_fst_filter_skip (data : List (String × String)) :
    (data.filter (fun p => !(skipKey p.1))).map Prod.fst
      = (data.map Prod.fst).filter (fun f => !(skipKey f)) := by
  induction data with
  | nil => rfl
  | cons hd tl ih =>
    by_cases h : skipKey hd.1 = true
    · simp [List.filter_cons, h, ih]
    · simp only [Bool.not_eq_true] at h
      simp [List.filter_cons, h, ih]

theorem baseColumns_filter_skip (keys : List String) :
    baseColumns (keys.filter (fun f => !(skipKey f))) = baseColumns keys := by
  unfold baseColumns
  rw [filter_self_idem]

theorem ensureColumnsP_filter_skip (channel : String) :
    ∀ (keys : List String) (db : DB),
      ensureColumnsP db channel (keys.filter (fun f => !(skipKey f)))
        = ensureColumnsP db channel keys
  | [], db => rfl
  | f :: rest, db => by
    by_cases h : skipKey f = true
    · rw [List.filter_cons]
      simp only [h, Bool.not_true, Bool.false_eq_true, if_false]
      have hstep : ensureColumnsP db channel (f :: rest)
          = ensureColumnsP db channel rest := by
        simp [ensureColumnsP, h]
      rw [hstep]
      exact ensureColumnsP_filter_skip channel rest db
    · simp only [Bool.not_eq_true] at h
      rw [List.filter_cons]
      simp only [h, Bool.not_false, if_true]
      have hstep : ∀ ks, ensureColumnsP db channel (f :: ks)
          = ensureColumnsP
              (if hasColumn db channel f then db else addColumn db channel ⟨f, "TEXT"⟩)
              channel ks := by
        intro ks
        simp [ensureColumnsP, h]
      rw [hstep, hstep]
      exact ensureColumnsP_filter_skip channel rest _

theorem ensureTableP_filter_skip (db : DB) (channel : String) (keys : List String) :
    ensureTableP db channel (keys.filter (fun f => !(skipKey f)))
      = ensureTableP db channel keys := by
  simp only [ensureTableP, baseColumns_filter_skip]
  exact ensureColumnsP_filter_skip channel keys _

theorem insertValues_filter_skip (data : List (String × String)) (event now : String) :
    insertValues (data.filter (fun p => !(skipKey p.1))) event now
      = insertValues data event now := by
  unfold insertValues
  rw [filter_self_idem]

theorem lookup_append_right {α β : Type} [BEq α] {key : α} {l2 : List (α × β)} :
    ∀ {l : List (α × β)}, (∀ p ∈ l, (key == p.1) = false) →
      (l ++ l2).lookup key = l2.lookup key := by
  intro l
  induction l with
  | nil => intro _; rfl
  | cons hd tl ih =>
    obtain ⟨k, v⟩ := hd
    intro h
    have hk := h (k, v) (List.mem_cons_self _ _)
    simp only at hk
    simp only [List.cons_append, List.lookup, hk]
    exact ih (fun p hp => h p (List.mem_cons_of_mem _ hp))

theorem skipped_key_ne {p : String × String} {key : String}
    (hkey : skipKey key = true)
    (hp : (!(skipKey p.1)) = true) : (key == p.1) = false := by
  simp only [Bool.not_eq_true'] at hp
  apply beq_false_of_ne
  intro hc
  rw [← hc, hkey] at hp
  simp at hp

/-! ### Claim theorems -/

/-- C1: the code performs no identifier validation at all: a channel name
carrying SQL text is interpolated verbatim into the CREATE TABLE statement,
`ensureTable` executes it rather than rejecting the operation, and
`buildQuery` accepts a filter field name carrying SQL text into the query
text.  This exhibits the claimed fail-closed validation being absent. -/
theorem c1_no_identifier_validation :
    createTableQuery "x\" (y TEXT); DROP TABLE users; --" [] =
      "CREATE TABLE IF NOT EXISTS \"x\" (y TEXT); DROP TABLE users; --\" (id SERIAL PRIMARY KEY, created_at TIMESTAMP DEFAULT NOW(), \"event\" TEXT);"
    ∧ ensureTable noErr [] "x\" (y TEXT); DROP TABLE users; --" [] =
        .ok [("x\" (y TEXT); DROP TABLE users; --",
          ⟨[⟨"id", "SERIAL PRIMARY KEY"⟩, ⟨"created_at", "TIMESTAMP DEFAULT NOW()"⟩,
            ⟨"event", "TEXT"⟩], []⟩)]
    ∧ buildQuery "c" [⟨"f\" = $1 OR \"x\" <> \"x", "==", "v"⟩] =
        .ok ("SELECT * FROM \"c\" WHERE \"f\" = $1 OR \"x\" <> \"x\" = $1 ORDER BY id DESC LIMIT 100",
             ["v"]) := by
  refine ⟨rfl, rfl, rfl⟩

/-- C2 counterexample: connection 0's write fails during dispatch of an
event on its channel, yet after `broadcastNotification` returns it is still
present in the `clients` registry (delivery to connection 1 did proceed). -/
theorem c2_failed_connection_still_registered :
    (broadcastNotification [(0, "a"), (1, "a")] (fun c => c != 0) ⟨"a", "e", []⟩).failed = [0]
    ∧ (broadcastNotification [(0, "a"), (1, "a")] (fun c => c != 0) ⟨"a", "e", []⟩).delivered = [1]
    ∧ (broadcastNotification [(0, "a"), (1, "a")] (fun c => c != 0)
        ⟨"a", "e", []⟩).registry.lookup 0 = some "a" := by
  refine ⟨rfl, rfl, rfl⟩

/-- C2 amended: a failing connection does not abort delivery — the
delivered set is exactly the matched connections whose write succeeds and
the failed set exactly those whose write fails — but the failed connection
is NOT removed: the registry after dispatch is unchanged (removal happens
only in the connection's own read loop). -/
theorem c2_failure_isolated_registry_unchanged (reg : Registry) (okW : Conn → Bool)
    (notif : Notification) (hnd : (reg.map Prod.fst).Nodup) :
    (∀ c, c ∈ (broadcastNotification reg okW notif).delivered ↔
        (reg.lookup c = some notif.channel ∧ okW c = true))
    ∧ (∀ c, c ∈ (broadcastNotification reg okW notif).failed ↔
        (reg.lookup c = some notif.channel ∧ okW c = false))
    ∧ (broadcastNotification reg okW notif).registry = reg := by
  refine ⟨fun c => ?_, fun c => ?_, rfl⟩ <;>
    rw [lookup_eq_some_iff hnd] <;>
    simp only [broadcastNotification, broadcastLoop_eq] <;>
    simp only [List.mem_map, List.mem_filter] <;>
    constructor
  · rintro ⟨p, ⟨⟨hp, hpc⟩, hok⟩, rfl⟩
    obtain ⟨p1, p2⟩ := p
    simp only [beq_iff_eq] at hpc
    subst hpc
    exact ⟨hp, hok⟩
  · rintro ⟨hmem, hok⟩
    exact ⟨(c, notif.channel), ⟨⟨hmem, by simp⟩, hok⟩, rfl⟩
  · rintro ⟨p, ⟨⟨hp, hpc⟩, hok⟩, rfl⟩
    obtain ⟨p1, p2⟩ := p
    simp only [beq_iff_eq] at hpc
    subst hpc
    simp only [Bool.not_eq_true'] at hok
    exact ⟨hp, hok⟩
  · rintro ⟨hmem, hok⟩
    exact ⟨(c, notif.channel), ⟨⟨hmem, by simp⟩, by simp [hok]⟩, rfl⟩

/-- C2 amended, witness at a concrete registry. -/
theorem c2_failure_isolated_registry_unchanged_witness :
    ([((0 : Conn), "a"), (1, "a")].map Prod.fst).Nodup
    ∧ ((broadcastNotification [(0, "a"), (1, "a")] (fun c => c != 0) ⟨"a", "e", []⟩).registry
        = [(0, "a"), (1, "a")]) :=
  ⟨by decide,
   (c2_failure_isolated_registry_unchanged [(0, "a"), (1, "a")] (fun c => c != 0)
      ⟨"a", "e", []⟩ (by decide)).2.2⟩

/-- C3 counterexample: with the database enabled and every statement
failing, `sendNotification` responds with a persistence error and delivers
to nobody, although connection 0 is live on the event's channel and
broadcasting would have reached it — persistence failure DOES prevent
dispatch. -/
theorem c3_persist_failure_prevents_dispatch :
    sendNotification (fun _ => true) true [] [(0, "ch")] (fun _ => true)
        ⟨"ch", "e", [("m", "v")]⟩ "t0" =
      ⟨.internalError (createTableQuery "ch" ["m"]), [], [], [], [(0, "ch")]⟩
    ∧ (broadcastNotification [(0, "ch")] (fun _ => true)
        ⟨"ch", "e", [("m", "v")]⟩).delivered = [0] := by
  refine ⟨rfl, rfl⟩

/-- C3 amended: persistence and dispatch are NOT independent — when the
database is enabled, a `saveToDB` failure makes `sendNotification` return
the persistence error without dispatching anything, and dispatch happens
exactly when persistence succeeds. -/
theorem c3_dispatch_requires_persist_success (err : ExecOracle) (db : DB)
    (reg : Registry) (okW : Conn → Bool) (notif : Notification) (now : String) :
    (∀ e dbp, saveToDB err db notif.channel notif.data notif.event now = .error (e, dbp) →
      sendNotification err true db reg okW notif now = ⟨.internalError e, dbp, [], [], reg⟩)
    ∧ (∀ db2, saveToDB err db notif.channel notif.data notif.event now = .ok db2 →
      sendNotification err true db reg okW notif now =
        ⟨.ok, db2, (broadcastNotification reg okW notif).delivered,
          (broadcastNotification reg okW notif).failed, reg⟩) := by
  constructor
  · intro e dbp h
    simp [sendNotification, h]
  · intro db2 h
    simp [sendNotification, h, broadcastNotification]

/-- C3 amended, witness: the all-failing database at a concrete input. -/
theorem c3_dispatch_requires_persist_success_witness :
    sendNotification (fun _ => true) true [] [((0 : Conn), "ch")] (fun _ => true)
        ⟨"ch", "e", [("m", "v")]⟩ "t0" =
      ⟨.internalError (createTableQuery "ch" ["m"]), [], [], [], [(0, "ch")]⟩ :=
  (c3_dispatch_requires_persist_success (fun _ => true) [] [(0, "ch")] (fun _ => true)
      ⟨"ch", "e", [("m", "v")]⟩ "t0").1
    (createTableQuery "ch" ["m"]) [] rfl

/-- C4: one dispatch writes to exactly the connections whose current
registry binding equals the event's channel — each at most once (the
written list is duplicate-free) and no connection bound to another channel
receives it. -/
theorem c4_dispatch_exactly_matched (reg : Registry) (okW : Conn → Bool)
    (notif : Notification) (hnd : (reg.map Prod.fst).Nodup) :
    ((broadcastNotification reg okW notif).delivered
      ++ (broadcastNotification reg okW notif).failed).Nodup
    ∧ ∀ c, (c ∈ (broadcastNotification reg okW notif).delivered
        ++ (broadcastNotification reg okW notif).failed) ↔
      reg.lookup c = some notif.channel :=
  ⟨broadcast_nodup hnd, fun c => mem_broadcast_iff hnd c⟩

/-- C4 witness: three interleaved channels. -/
theorem c4_dispatch_exactly_matched_witness :
    ([((0 : Conn), "a"), (1, "b"), (2, "a"), (3, "c")].map Prod.fst).Nodup
    ∧ (∀ c, (c ∈ (broadcastNotification [(0, "a"), (1, "b"), (2, "a"), (3, "c")]
          (fun _ => true) ⟨"a", "e", []⟩).delivered
        ++ (broadcastNotification [(0, "a"), (1, "b"), (2, "a"), (3, "c")]
          (fun _ => true) ⟨"a", "e", []⟩).failed) ↔
      [((0 : Conn), "a"), (1, "b"), (2, "a"), (3, "c")].lookup c = some "a") :=
  ⟨by decide,
   (c4_dispatch_exactly_matched [(0, "a"), (1, "b"), (2, "a"), (3, "c")]
      (fun _ => true) ⟨"a", "e", []⟩ (by decide)).2⟩

/-- C6: reconciling an existing relation that lacks exactly one key of the
payload appends exactly one new TEXT column for that key, leaves every
pre-existing column (name and type) and every row unchanged, leaves every
other relation untouched; and no persist call ever removes or retypes a
column of any relation (column lists only ever grow on the right). -/
theorem c6_additive_schema_evolution (db : DB) (channel : String)
    (data : List (String × String)) (t : Table) (k : String)
    (ht : findTable db channel = some t)
    (hev : hasColumn db channel "event" = true)
    (hmiss : (data.map Prod.fst).filter
        (fun f => !(skipKey f) && !(t.cols.any (fun c => c.name = f))) = [k]) :
    (∃ db2, ensureTable noErr db channel (data.map Prod.fst) = .ok db2
       ∧ findTable db2 channel = some ⟨t.cols ++ [⟨k, "TEXT"⟩], t.rows⟩
       ∧ ∀ n, n ≠ channel → findTable db2 n = findTable db n)
    ∧ ∀ (db0 : DB) (ch0 : String) (data0 : List (String × String)) (ev0 now0 : String)
        (db1 : DB) (n : String) (tb : Table),
        saveToDB noErr db0 ch0 data0 ev0 now0 = .ok db1 →
        findTable db0 n = some tb →
        ∃ tb1, findTable db1 n = some tb1 ∧ tb.cols <+: tb1.cols := by
  constructor
  · have hsome : (findTable db channel).isSome = true := by rw [ht]; rfl
    have hctbl := createTable_of_exists (baseColumns (data.map Prod.fst)) hsome
    have hP : ensureTableP db channel (data.map Prod.fst)
        = ensureColumnsP db channel (data.map Prod.fst) := by
      simp [ensureTableP, hctbl, hev]
    refine ⟨ensureColumnsP db channel (data.map Prod.fst), ?_, ?_, ?_⟩
    · rw [ensureTable_noErr, hP]
    · rw [ensureColumnsP_target channel (data.map Prod.fst) db t ht,
        addMissing_single hmiss]
    · intro n hn
      exact ensureColumnsP_other channel hn (data.map Prod.fst) db
  · intro db0 ch0 data0 ev0 now0 db1 n tb hsave hfind
    rw [saveToDB_noErr] at hsave
    have hdb1 : db1 = saveToDBP db0 ch0 data0 ev0 now0 := (Except.ok.inj hsave).symm
    subst hdb1
    exact colsExtend_saveToDBP db0 ch0 data0 ev0 now0 n tb hfind

/-- C6 witness: a relation with one dynamic column `a` receives a payload
with keys `a` and `b`; exactly the column `b` is appended. -/
theorem c6_additive_schema_evolution_witness :
    ∃ db2, ensureTable noErr
        [("ch", ⟨[⟨"id", "SERIAL PRIMARY KEY"⟩, ⟨"created_at", "TIMESTAMP DEFAULT NOW()"⟩,
            ⟨"event", "TEXT"⟩, ⟨"a", "TEXT"⟩], [[("event", "x"), ("a", "1")]]⟩)]
        "ch" ([("a", "1"), ("b", "2")].map Prod.fst) = .ok db2
      ∧ findTable db2 "ch" = some
          ⟨[⟨"id", "SERIAL PRIMARY KEY"⟩, ⟨"created_at", "TIMESTAMP DEFAULT NOW()"⟩,
            ⟨"event", "TEXT"⟩, ⟨"a", "TEXT"⟩] ++ [⟨"b", "TEXT"⟩],
           [[("event", "x"), ("a", "1")]]⟩
      ∧ ∀ n, n ≠ "ch" → findTable db2 n = findTable
          [("ch", ⟨[⟨"id", "SERIAL PRIMARY KEY"⟩, ⟨"created_at", "TIMESTAMP DEFAULT NOW()"⟩,
              ⟨"event", "TEXT"⟩, ⟨"a", "TEXT"⟩], [[("event", "x"), ("a", "1")]]⟩)] n :=
  (c6_additive_schema_evolution
      [("ch", ⟨[⟨"id", "SERIAL PRIMARY KEY"⟩, ⟨"created_at", "TIMESTAMP DEFAULT NOW()"⟩,
          ⟨"event", "TEXT"⟩, ⟨"a", "TEXT"⟩], [[("event", "x"), ("a", "1")]]⟩)]
      "ch" [("a", "1"), ("b", "2")]
      ⟨[⟨"id", "SERIAL PRIMARY KEY"⟩, ⟨"created_at", "TIMESTAMP DEFAULT NOW()"⟩,
          ⟨"event", "TEXT"⟩, ⟨"a", "TEXT"⟩], [[("event", "x"), ("a", "1")]]⟩
      "b" rfl (by decide) (by decide)).1

/-- C10: payload entries named `id`, `created_at` or `event` are invisible
to persistence — `saveToDB` behaves identically with them removed — and in
the inserted row the `event` value is the event argument, `created_at` is
the server-side timestamp, and no `id` field is supplied by the payload. -/
theorem c10_reserved_keys_skipped (db : DB) (channel : String)
    (data : List (String × String)) (event now : String) :
    saveToDB noErr db channel data event now
      = saveToDB noErr db channel (data.filter (fun p => !(skipKey p.1))) event now
    ∧ (insertValues data event now).lookup "event" = some event
    ∧ (insertValues data event now).lookup "created_at" = some now
    ∧ (insertValues data event now).lookup "id" = none := by
  refine ⟨?_, ?_, ?_, ?_⟩
  · rw [saveToDB_noErr, saveToDB_noErr]
    unfold saveToDBP
    rw [map_fst_filter_skip, ensureTableP_filter_skip, insertValues_filter_skip]
  · simp [insertValues, List.lookup]
  · show ((("event", event) :: data.filter (fun p => !(skipKey p.1)))
        ++ [("created_at", now)]).lookup "created_at" = some now
    rw [lookup_append_right]
    · simp [List.lookup]
    · intro p hp
      simp only [List.mem_cons] at hp
      cases hp with
      | inl h => subst h; rfl
      | inr h => exact skipped_key_ne (by decide) (List.mem_filter.mp h).2
  · show ((("event", event) :: data.filter (fun p => !(skipKey p.1)))
        ++ [("created_at", now)]).lookup "id" = none
    rw [lookup_append_right]
    · simp [List.lookup]
    · intro p hp
      simp only [List.mem_cons] at hp
      cases hp with
      | inl h => subst h; rfl
      | inr h => exact skipped_key_ne (by decide) (List.mem_filter.mp h).2

/-- C9 counterexample: an ingress event with an empty channel is accepted
by `sendNotification` (success response) and dispatched to connection 0,
which is subscribed to the empty channel — it is not rejected. -/
theorem c9_empty_channel_accepted_and_dispatched :
    sendNotification noErr false [] [(0, "")] (fun _ => true) ⟨"", "e", []⟩ "t0" =
      ⟨.ok, [], [0], [], [(0, "")]⟩ := by
  rfl

/-- C9 amended: `sendNotification` performs no channel validation: an event
with an empty channel proceeds like any other — with the database disabled
it is dispatched to exactly the connections bound to the empty channel and
the call reports success; with the database enabled it is persisted as
well. -/
theorem c9_empty_channel_not_rejected (db : DB) (reg : Registry) (okW : Conn → Bool)
    (ev : String) (data : List (String × String)) (now : String) :
    sendNotification noErr false db reg okW ⟨"", ev, data⟩ now =
      ⟨.ok, db, (broadcastNotification reg okW ⟨"", ev, data⟩).delivered,
        (broadcastNotification reg okW ⟨"", ev, data⟩).failed, reg⟩
    ∧ ∀ db2, saveToDB noErr db "" data ev now = .ok db2 →
      sendNotification noErr true db reg okW ⟨"", ev, data⟩ now =
        ⟨.ok, db2, (broadcastNotification reg okW ⟨"", ev, data⟩).delivered,
          (broadcastNotification reg okW ⟨"", ev, data⟩).failed, reg⟩ := by
  constructor
  · simp [sendNotification, broadcastNotification]
  · intro db2 h
    simp [sendNotification, h, broadcastNotification]

theorem lookup_eq_none_iff {r : Registry} {h : Conn} :
    r.lookup h = none ↔ h ∉ r.map Prod.fst := by
  induction r with
  | nil => simp
  | cons hd tl ih =>
    obtain ⟨k, v⟩ := hd
    by_cases hk : h = k
    · subst hk
      simp [List.lookup]
    · simp [List.lookup, beq_false_of_ne hk, ih, hk]

theorem filter_key_eq_nil {l : Registry} {h : Conn} (hmem : h ∉ l.map Prod.fst) :
    l.filter (fun p => p.1 == h) = [] := by
  rw [List.filter_eq_nil_iff]
  intro p hp
  simp only [beq_iff_eq]
  intro hph
  exact hmem (List.mem_map.mpr ⟨p, hp, hph⟩)

theorem register_mapped_keys (r : Registry) (h : Conn) (c : String) :
    (r.map (fun p => if p.1 = h then (h, c) else p)).map Prod.fst = r.map Prod.fst := by
  rw [List.map_map]
  apply List.map_congr_left
  intro p _
  by_cases hp : p.1 = h
  · simp [hp]
  · simp [hp]

theorem register_keys (r : Registry) (h : Conn) (c : String) :
    (register r h c).map Prod.fst =
      if (r.lookup h).isSome then r.map Prod.fst else r.map Prod.fst ++ [h] := by
  unfold register
  split_ifs with hp
  · exact register_mapped_keys r h c
  · simp

theorem register_keys_nodup {r : Registry} {h : Conn} {c : String}
    (hnd : (r.map Prod.fst).Nodup) : ((register r h c).map Prod.fst).Nodup := by
  rw [register_keys]
  split_ifs with hp
  · exact hnd
  · have hnone : r.lookup h = none := Option.not_isSome_iff_eq_none.mp hp
    rw [List.nodup_append]
    refine ⟨hnd, List.nodup_singleton h, ?_⟩
    intro a ha hb
    simp only [List.mem_singleton] at hb
    subst hb
    exact (lookup_eq_none_iff.mp hnone) ha

theorem mapped_lookup_eq {h : Conn} {c : String} :
    ∀ {r : Registry}, h ∈ r.map Prod.fst →
      (r.map (fun p => if p.1 = h then (h, c) else p)).lookup h = some c := by
  intro r
  induction r with
  | nil => simp
  | cons hd tl ih =>
    obtain ⟨k, v⟩ := hd
    intro hmem
    by_cases hk : k = h
    · subst hk
      have hhead : (fun p => if p.1 = k then (k, c) else p) (k, v) = (k, c) := by
        simp
      simp only [List.map_cons, hhead]
      simp [List.lookup]
    · have hne : ¬((k, v).1 = h) := hk
      simp only [List.map_cons, if_neg hne]
      have hbeq : (h == k) = false := beq_false_of_ne (Ne.symm hk)
      simp only [List.lookup, hbeq]
      apply ih
      simp only [List.map_cons, List.mem_cons] at hmem
      exact hmem.resolve_left (Ne.symm hk)

theorem append_lookup_eq {h : Conn} {c : String} :
    ∀ {r : Registry}, h ∉ r.map Prod.fst → (r ++ [(h, c)]).lookup h = some c := by
  intro r
  induction r with
  | nil => simp [List.lookup]
  | cons hd tl ih =>
    obtain ⟨k, v⟩ := hd
    intro hmem
    simp only [List.map_cons, List.mem_cons, not_or] at hmem
    have hbeq : (h == k) = false := beq_false_of_ne hmem.1
    simp only [List.cons_append, List.lookup, hbeq]
    exact ih hmem.2

theorem register_lookup (r : Registry) (h : Conn) (c : String) :
    (register r h c).lookup h = some c := by
  unfold register
  split_ifs with hp
  · apply mapped_lookup_eq
    cases hl : r.lookup h with
    | none => rw [hl] at hp; simp at hp
    | some v =>
      by_contra hmem
      rw [lookup_eq_none_iff.mpr hmem] at hl
      exact Option.noConfusion hl
  · exact append_lookup_eq (lookup_eq_none_iff.mp (Option.not_isSome_iff_eq_none.mp hp))

theorem mapped_filter_eq {h : Conn} {c : String} :
    ∀ {r : Registry}, (r.map Prod.fst).Nodup → h ∈ r.map Prod.fst →
      (r.map (fun p => if p.1 = h then (h, c) else p)).filter (fun p => p.1 == h)
        = [(h, c)] := by
  intro r
  induction r with
  | nil => simp
  | cons hd tl ih =>
    obtain ⟨k, v⟩ := hd
    intro hnd hmem
    simp only [List.map_cons, List.nodup_cons] at hnd
    by_cases hk : k = h
    · subst hk
      have hhead : (fun p => if p.1 = k then (k, c) else p) (k, v) = (k, c) := by
        simp
      have htl : (tl.map (fun p => if p.1 = k then (k, c) else p)).filter
          (fun p => p.1 == k) = [] := by
        apply filter_key_eq_nil
        rw [register_mapped_keys]
        exact hnd.1
      simp only [List.map_cons, hhead, List.filter_cons]
      simp [htl]
    · have hne : ¬((k, v).1 = h) := hk
      simp only [List.map_cons, if_neg hne, List.filter_cons]
      have hbeq : ((k, v).1 == h) = false := beq_false_of_ne hk
      rw [hbeq]
      simp only [Bool.false_eq_true, if_false]
      apply ih hnd.2
      simp only [List.map_cons, List.mem_cons] at hmem
      exact hmem.resolve_left (Ne.symm hk)

theorem register_filter {r : Registry} {h : Conn} {c : String}
    (hnd : (r.map Prod.fst).Nodup) :
    (register r h c).filter (fun p => p.1 == h) = [(h, c)] := by
  unfold register
  split_ifs with hp
  · apply mapped_filter_eq hnd
    cases hl : r.lookup h with
    | none => rw [hl] at hp; simp at hp
    | some v =>
      by_contra hmem
      rw [lookup_eq_none_iff.mpr hmem] at hl
      exact Option.noConfusion hl
  · rw [List.filter_append,
      filter_key_eq_nil (lookup_eq_none_iff.mp (Option.not_isSome_iff_eq_none.mp hp))]
    simp

/-- C7: replaying any nonempty sequence of `register` calls for the same
handle leaves the registry binding that handle to exactly the channel of
the most recent call: it holds precisely one entry for the handle, bound to
the last channel, and the registry invariant (unique handles) is
preserved. -/
theorem c7_register_replaces_binding (reg : Registry) (h : Conn) (cs : List String)
    (clast : String) (hnd : (reg.map Prod.fst).Nodup) (hlast : cs.getLast? = some clast) :
    ((cs.foldl (fun acc c => register acc h c) reg).lookup h = some clast)
    ∧ ((cs.foldl (fun acc c => register acc h c) reg).filter (fun p => p.1 == h)
        = [(h, clast)])
    ∧ (((cs.foldl (fun acc c => register acc h c) reg).map Prod.fst).Nodup) := by
  revert hnd hlast
  induction cs generalizing reg with
  | nil =>
    intro hnd hlast
    simp at hlast
  | cons c cs ih =>
    intro hnd hlast
    cases cs with
    | nil =>
      simp only [List.getLast?_singleton, Option.some.injEq] at hlast
      subst hlast
      simp only [List.foldl_cons, List.foldl_nil]
      exact ⟨register_lookup reg h c, register_filter hnd, register_keys_nodup hnd⟩
    | cons c2 cs2 =>
      rw [List.getLast?_cons_cons] at hlast
      simp only [List.foldl_cons]
      exact ih (register reg h c) (register_keys_nodup hnd) hlast

/-- C7 witness: three successive registrations of handle 0. -/
theorem c7_register_replaces_binding_witness :
    ((["a", "b", "c"].foldl (fun acc c => register acc 0 c)
        ([(5, "x")] : Registry)).lookup 0 = some "c")
    ∧ ((["a", "b", "c"].foldl (fun acc c => register acc 0 c)
        ([(5, "x")] : Registry)).filter (fun p => p.1 == 0) = [(0, "c")]) :=
  ⟨(c7_register_replaces_binding [(5, "x")] 0 ["a", "b", "c"] "c"
      (by decide) (by decide)).1,
   (c7_register_replaces_binding [(5, "x")] 0 ["a", "b", "c"] "c"
      (by decide) (by decide)).2.1⟩

theorem buildQueryLoop_error {filters : List Filter}
    (h : ∃ f ∈ filters, allowedOperators.lookup f.op = none) (i : Nat) :
    ∃ m, buildQueryLoop filters i = .error m := by
  induction filters generalizing i with
  | nil => simp at h
  | cons f rest ih =>
    obtain ⟨g, hg, hop⟩ := h
    simp only [List.mem_cons] at hg
    cases hg with
    | inl hgf =>
      subst hgf
      exact ⟨"Invalid operator: " ++ g.op, by simp [buildQueryLoop, hop]⟩
    | inr hgrest =>
      cases hf : allowedOperators.lookup f.op with
      | none => exact ⟨"Invalid operator: " ++ f.op, by simp [buildQueryLoop, hf]⟩
      | some op =>
        obtain ⟨m, hm⟩ := ih ⟨g, hgrest, hop⟩ (i + 1)
        exact ⟨m, by simp [buildQueryLoop, hf, hm]⟩

theorem buildQueryLoop_ok {filters : List Filter} {i : Nat} {conds args : List String}
    (h : buildQueryLoop filters i = .ok (conds, args)) :
    conds = queryConds (filters.map fun f => (f.field, f.op)) i
    ∧ args = filters.map Filter.value := by
  induction filters generalizing i conds args with
  | nil =>
    simp only [buildQueryLoop, Except.ok.injEq, Prod.mk.injEq] at h
    obtain ⟨hc, ha⟩ := h
    simp [queryConds, hc.symm, ha.symm]
  | cons f rest ih =>
    cases hf : allowedOperators.lookup f.op with
    | none => simp [buildQueryLoop, hf] at h
    | some op =>
      cases hr : buildQueryLoop rest (i + 1) with
      | error e => simp [buildQueryLoop, hf, hr] at h
      | ok p =>
        obtain ⟨conds1, args1⟩ := p
        obtain ⟨hc, ha⟩ := ih hr
        simp only [buildQueryLoop, hf, hr, Except.ok.injEq, Prod.mk.injEq] at h
        obtain ⟨hcq, haq⟩ := h
        subst hcq haq
        simp [queryConds, hf, hc, ha]

theorem buildQueryLoop_total {filters : List Filter}
    (h : ∀ f ∈ filters, (allowedOperators.lookup f.op).isSome = true) (i : Nat) :
    buildQueryLoop filters i =
      .ok (queryConds (filters.map fun f => (f.field, f.op)) i,
           filters.map Filter.value) := by
  induction filters generalizing i with
  | nil => rfl
  | cons f rest ih =>
    have hf := h f (List.mem_cons_self f rest)
    cases hop : allowedOperators.lookup f.op with
    | none => rw [hop] at hf; simp at hf
    | some op =>
      simp [buildQueryLoop, hop,
        ih (fun g hg => h g (List.mem_cons_of_mem f hg)) (i + 1), queryConds]

theorem queryConds_length (fos : List (String × String)) (i : Nat) :
    (queryConds fos i).length = fos.length := by
  induction fos generalizing i with
  | nil => rfl
  | cons hd tl ih =>
    obtain ⟨fld, op⟩ := hd
    simp [queryConds, ih]

/-- C5: `buildQuery` rejects any filter whose operator is outside the fixed
allow-list before any query is constructed, and on success the filter
values appear only in the bound-argument list: the query text is a function
of the channel and the field/operator pairs alone. -/
theorem c5_operator_allowlist_values_bound (channel : String) (filters : List Filter) :
    ((∃ f ∈ filters, allowedOperators.lookup f.op = none) →
      ∃ m, buildQuery channel filters = .error m)
    ∧ (∀ q args, buildQuery channel filters = .ok (q, args) →
        args = filters.map Filter.value
        ∧ q = queryTextOf channel (filters.map fun f => (f.field, f.op))) := by
  constructor
  · intro h
    obtain ⟨m, hm⟩ := buildQueryLoop_error h 1
    exact ⟨m, by simp [buildQuery, hm]⟩
  · intro q args h
    cases hr : buildQueryLoop filters 1 with
    | error e => simp [buildQuery, hr] at h
    | ok p =>
      obtain ⟨conds, args1⟩ := p
      obtain ⟨hc, ha⟩ := buildQueryLoop_ok hr
      simp only [buildQuery, hr, Except.ok.injEq, Prod.mk.injEq] at h
      obtain ⟨hq, hargs⟩ := h
      subst hargs hc ha
      exact ⟨rfl, by rw [← hq]; simp [queryTextOf]⟩

/-- C5 witness: a filter with the unknown operator `@@` is rejected; two
allowed filters produce a text independent of their values with the values
in the argument list. -/
theorem c5_operator_allowlist_values_bound_witness :
    (∃ m, buildQuery "t" [⟨"a", "@@", "v"⟩] = .error m)
    ∧ (["v1", "v2"] = ([⟨"a", "==", "v1"⟩, ⟨"b", "like", "v2"⟩] : List Filter).map Filter.value
       ∧ "SELECT * FROM \"t\" WHERE \"a\" = $1 AND \"b\" LIKE $2 ORDER BY id DESC LIMIT 100"
          = queryTextOf "t" (([⟨"a", "==", "v1"⟩, ⟨"b", "like", "v2"⟩] : List Filter).map
              fun f => (f.field, f.op))) :=
  ⟨(c5_operator_allowlist_values_bound "t" [⟨"a", "@@", "v"⟩]).1
      ⟨⟨"a", "@@", "v"⟩, by simp, rfl⟩,
   (c5_operator_allowlist_values_bound "t" [⟨"a", "==", "v1"⟩, ⟨"b", "like", "v2"⟩]).2
      "SELECT * FROM \"t\" WHERE \"a\" = $1 AND \"b\" LIKE $2 ORDER BY id DESC LIMIT 100"
      ["v1", "v2"] rfl⟩

/-- C8: on allowed operators, the produced query conjoins the filter
conditions with AND inside a single WHERE clause, appends
`ORDER BY id DESC LIMIT 100` (newest-first by surrogate id, capped at
100 rows), and with no filters it has no WHERE clause. -/
theorem c8_query_shape (channel : String) (filters : List Filter)
    (hops : ∀ f ∈ filters, (allowedOperators.lookup f.op).isSome = true) :
    buildQuery channel filters =
      .ok ((if 0 < filters.length then
              "SELECT * FROM \"" ++ channel ++ "\"" ++ " WHERE "
                ++ String.intercalate " AND "
                    (queryConds (filters.map fun f => (f.field, f.op)) 1)
            else "SELECT * FROM \"" ++ channel ++ "\"")
            ++ " ORDER BY id DESC LIMIT 100",
           filters.map Filter.value)
    ∧ (filters = [] →
        buildQuery channel filters =
          .ok ("SELECT * FROM \"" ++ channel ++ "\"" ++ " ORDER BY id DESC LIMIT 100", [])) := by
  constructor
  · rw [buildQuery, buildQueryLoop_total hops 1]
    simp [queryConds_length]
  · rintro rfl
    rfl

/-- C8 witness: two conjoined filters, and the empty filter list. -/
theorem c8_query_shape_witness :
    buildQuery "t" [⟨"a", "==", "v1"⟩, ⟨"b", ">=", "v2"⟩] =
      .ok ((if 0 < ([⟨"a", "==", "v1"⟩, ⟨"b", ">=", "v2"⟩] : List Filter).length then
              "SELECT * FROM \"t\"" ++ " WHERE "
                ++ String.intercalate " AND "
                    (queryConds (([⟨"a", "==", "v1"⟩, ⟨"b", ">=", "v2"⟩] : List Filter).map
                        fun f => (f.field, f.op)) 1)
            else "SELECT * FROM \"t\"")
            ++ " ORDER BY id DESC LIMIT 100",
           ["v1", "v2"])
    ∧ buildQuery "t" ([] : List Filter) =
        .ok ("SELECT * FROM \"t\"" ++ " ORDER BY id DESC LIMIT 100", []) :=
  ⟨(c8_query_shape "t" [⟨"a", "==", "v1"⟩, ⟨"b", ">=", "v2"⟩] (by decide)).1,
   (c8_query_shape "t" [] (by simp)).2 rfl⟩

/-- C9 amended, witness at a concrete input. -/
theorem c9_empty_channel_not_rejected_witness :
    sendNotification noErr false [] [((0 : Conn), "")] (fun _ => true) ⟨"", "e", []⟩ "t0" =
      ⟨.ok, [], [0], [], [(0, "")]⟩ :=
  (c9_empty_channel_not_rejected [] [(0, "")] (fun _ => true) "e" [] "t0").1

end WsGo
